import Mathlib

/-!
Shallow embedding of `recipes/cudatoolkit/build.py`: the cudatoolkit
extractor script.  Pure Lean models of the version parsing
(`Extractor.__init__`), library-path resolution (`Extractor.get_paths`),
materialization (`Extractor.copy_files`), and the Windows extraction
pipeline (`WindowsExtractor.extract`), together with theorems settling
the specification claims about them.

Machine conventions used throughout:
* a directory listing (`os.listdir`) is a `List Entry`, each entry
  carrying its name, whether `os.path.islink` holds for it, and whether
  `os.path.isfile` holds for it;
* Python strings are Lean `String`s; Python string comparison (used by
  `max` over paths) is lexicographic comparison of the character lists,
  which is exactly the `<` of `String`;
* fallible Python code (raised exceptions) is modelled with `Except`.
-/

namespace Build

/-! ## String utilities

`fnmatch.filter`, `str.format` with the `{0}` placeholder, `str.split('.')`
and the Python substring test (`'jre' in path`) are re-implemented over
character lists so that every definition is executable by the kernel.
-/

/-- Glob matching on character lists, as `fnmatch.fnmatchcase` does for the
patterns this script uses: `*` matches any run of characters, `?` matches a
single character, every other character matches itself.  (The recipe's
patterns, e.g. `lib{0}.so*` and `{0}64_1*.dll`, use no bracket classes.)
The `fuel` argument only bounds the recursion; `pattern.length +
name.length + 1` fuel is always enough because every recursive call shrinks
the combined length of the two lists. -/
def globMatch : Nat → List Char → List Char → Bool
  | 0, _, _ => false
  | _ + 1, [], [] => true
  | f + 1, '*' :: ps, [] => globMatch f ps []
  | _ + 1, _ :: _, [] => false
  | _ + 1, [], _ :: _ => false
  | f + 1, '*' :: ps, c :: cs => globMatch f ps (c :: cs) || globMatch f ('*' :: ps) cs
  | f + 1, '?' :: ps, _ :: cs => globMatch f ps cs
  | f + 1, p :: ps, c :: cs => (p == c) && globMatch f ps cs

/-- `fnmatch name pattern` is Python `fnmatch.fnmatch(name, pattern)` for
this script's patterns (no case folding is relevant to any claim). -/
def fnmatch (name pattern : String) : Bool :=
  globMatch (pattern.length + name.length + 1) pattern.data name.data

/-- Substitute a string for every occurrence of the `{0}` placeholder,
as `template.format(libname)` does in `get_paths`. -/
def substChars (arg : List Char) : List Char → List Char
  | [] => []
  | '\x7b' :: '0' :: '\x7d' :: rest => arg ++ substChars arg rest
  | c :: rest => c :: substChars arg rest

/-- `formatOne template arg` is Python `template.format(arg)` for templates
whose only replacement field is `{0}`. -/
def formatOne (template arg : String) : String :=
  ⟨substChars arg.data template.data⟩

/-- Split a character list at every occurrence of a separator character;
models Python `str.split(sep)` for a one-character separator.  As in
Python, the result is never empty and splitting the empty string yields
one empty piece. -/
def splitOnChar (sep : Char) : List Char → List (List Char)
  | [] => [[]]
  | c :: cs =>
    match splitOnChar sep cs with
    | [] => [[]]
    | g :: gs => if c == sep then [] :: g :: gs else (c :: g) :: gs

/-- Whether `sub` occurs at the start of `s` (character lists). -/
def startsWithChars : List Char → List Char → Bool
  | [], _ => true
  | _ :: _, [] => false
  | a :: as, b :: bs => (a == b) && startsWithChars as bs

/-- Whether `sub` occurs anywhere in `s` (character lists). -/
def containsAt (sub : List Char) : List Char → Bool
  | [] => startsWithChars sub []
  | c :: cs => startsWithChars sub (c :: cs) || containsAt sub cs

/-- `strContains s sub` is the Python substring test `sub in s`. -/
def strContains (s sub : String) : Bool :=
  containsAt sub.data s.data

/-- `os.path.join(dirpath, name)` with a directory separator, as used when
`get_paths` builds `tmppath`. -/
def joinPath (dirpath name : String) : String :=
  dirpath ++ "/" ++ name

/-- Lexicographic (code-point) comparison of character lists: Python string
`<`, which is what `max` over a list of path strings uses. -/
def ltChars : List Char → List Char → Bool
  | [], [] => false
  | [], _ :: _ => true
  | _ :: _, [] => false
  | a :: as, b :: bs => if a < b then true else if b < a then false else ltChars as bs

/-- Python string comparison `a < b`: lexicographic by code point. -/
def strLt (a b : String) : Bool :=
  ltChars a.data b.data

/-! ## Directory model and the path resolver (`Extractor.get_paths`) -/

/-- One entry of a directory listing: its name, whether `os.path.islink`
is true of it, and whether `os.path.isfile` is true of it (for a symlink,
`isfile` follows the link). -/
structure Entry where
  name : String
  isLink : Bool
  isFile : Bool
deriving DecidableEq

/-- The errors `get_paths` can raise: `notFound` and `ambiguous` are the
two explicit `RuntimeError`s (carrying the library name and the formatted
pattern, as the messages do), `integrity` is the `assert
os.path.isfile(tmppath)` failure, and `maxOfEmpty` is the `ValueError`
Python's `max` raises on an empty sequence. -/
inductive PathsError where
  | notFound (libname filename : String)
  | ambiguous (libname filename : String)
  | integrity (path : String)
  | maxOfEmpty
deriving DecidableEq

/-- Python `max(strings)`: fold keeping the current value unless the next
element is strictly greater, so the first of several equal maxima is
returned.  Here applied to entries compared by their joined path, exactly
as `get_paths` compares the strings in `concrete_dsos`. -/
def pyMaxEntry (dirpath : String) : List Entry → Option Entry
  | [] => none
  | e :: es =>
    some (es.foldl
      (fun a b => if strLt (joinPath dirpath a.name) (joinPath dirpath b.name) then b else a) e)

/-- The specification's example listing for alias resolution:
`libfoo.so.1` concrete, `libfoo.so.2` a symlink, `libfoo.so.3` concrete,
all regular files from the point of view of `os.path.isfile`. -/
def libfooListing : List Entry :=
  [⟨"libfoo.so.1", false, true⟩, ⟨"libfoo.so.2", true, true⟩,
   ⟨"libfoo.so.3", false, true⟩]

/-- The body of `get_paths` for a single library name (`build.py` lines
182-211).  `symlinks` is `self.symlinks` (true exactly on linux);
`dirlist` models `os.listdir(dirpath)`.  Steps, mirroring the source:
format the template, glob-filter the listing, raise on zero matches,
raise on multiple matches when aliasing is disallowed, assert every
matched path is a file, and in symlink mode keep only the maximal
concrete (non-symlink) path while retaining every symlink. -/
def getPathsOne (symlinks : Bool) (dirlist : List Entry) (dirpath libname template : String) :
    Except PathsError (List String) :=
  let filename := formatOne template libname
  let paths := dirlist.filter (fun e => fnmatch e.name filename)
  if paths.isEmpty then
    .error (.notFound libname filename)
  else if (!symlinks) && (paths.length != 1) then
    .error (.ambiguous libname filename)
  else
    match paths.find? (fun e => !e.isFile) with
    | some e => .error (.integrity (joinPath dirpath e.name))
    | none =>
      if symlinks then
        match pyMaxEntry dirpath (paths.filter (fun e => !e.isLink)) with
        | none => .error .maxOfEmpty
        | some target =>
          .ok (((((paths.filter (fun e => !e.isLink)).erase target).foldl
                  (fun acc x => acc.erase x) paths).map
                (fun e => joinPath dirpath e.name)))
      else
        .ok (paths.map (fun e => joinPath dirpath e.name))

/-- `Extractor.get_paths`: resolve each library name in order against the
same directory listing and template, concatenating the per-name results;
the first error aborts the whole resolution. -/
def get_paths (symlinks : Bool) (dirlist : List Entry) (dirpath : String)
    (libraries : List String) (template : String) : Except PathsError (List String) :=
  match libraries with
  | [] => .ok []
  | libname :: rest => do
    let ps ← getPathsOne symlinks dirlist dirpath libname template
    let tail ← get_paths symlinks dirlist dirpath rest template
    pure (ps ++ tail)

/-! ## Module load (running `build.py` at all) -/

/-- Line 137 of `build.py`, exactly as it stands in the source. -/
def line137 : String :=
  "        elif len(version_parts) > 2::"

/-- Number of consecutive occurrences of a character at the head of a
character list. -/
def countLeading (c : Char) : List Char → Nat
  | [] => 0
  | x :: xs => if x == c then countLeading c xs + 1 else 0

/-- Number of colons a line ends with. -/
def trailingColons (s : String) : Nat :=
  countLeading ':' s.data.reverse

/-- The load step of running `build.py`.  CPython compiles the whole
module before executing any statement of it, and its grammar gives a
compound-statement header such as `elif EXPR:` exactly one trailing
colon; line 137 of the source ends in two (`elif len(version_parts) >
2::`), so compilation fails and every invocation of the script aborts
with `SyntaxError` at import -- before any statement, version check,
environment read, file-system access or process activity can run. -/
def moduleLoad : Except String Unit :=
  if trailingColons line137 == 1 then .ok ()
  else .error "SyntaxError: invalid syntax (line 137)"

/-- Number of configuration records one invocation of the script writes.
`main` (lines 401-413) ends by calling `extractor.dump_config()` once,
and `dump_config` (lines 243-248) writes one file; but no statement of
the module executes when the load step fails, so a failing load writes
zero records. -/
def configRecordsWritten : Nat :=
  match moduleLoad with
  | .error _ => 0
  | .ok _ => 1

/-- One platform record of the static `CONFIG` table. -/
structure PlatformConfig where
  blob : String
  embedded_blob : Option String
  patches : List String
  cuda_lib_fmt : String
  cuda_static_lib_fmt : String
  nvtoolsext_fmt : String
  nvvm_lib_fmt : String
  libdevice_lib_fmt : String
  nvToolsExtPath : Option String
deriving DecidableEq

/-- `CONFIG['linux']` (ppc64le alternates omitted: they only rebind
`blob`/`embedded_blob` on a ppc64le machine). -/
def CONFIG_linux : PlatformConfig :=
  { blob := "cuda_11.0.3_450.51.06_linux.run"
    embedded_blob := none
    patches := []
    cuda_lib_fmt := "lib{0}.so*"
    cuda_static_lib_fmt := "lib{0}.a"
    nvtoolsext_fmt := "lib{0}.so*"
    nvvm_lib_fmt := "lib{0}.so*"
    libdevice_lib_fmt := "libdevice.10.bc"
    nvToolsExtPath := none }

/-- `CONFIG['windows']`. -/
def CONFIG_windows : PlatformConfig :=
  { blob := "cuda_11.0.3_451.82_win10.exe"
    embedded_blob := none
    patches := []
    cuda_lib_fmt := "{0}64_1*.dll"
    cuda_static_lib_fmt := "{0}.lib"
    nvtoolsext_fmt := "{0}64_1.dll"
    nvvm_lib_fmt := "{0}64_33_0.dll"
    libdevice_lib_fmt := "libdevice.10.bc"
    nvToolsExtPath := some "c:\\Program Files\\NVIDIA Corporation\\NVToolsExt\\bin" }

/-- `CONFIG[platform]`: the two platform keys of the table; any other key
would raise `KeyError`. -/
def CONFIG_platform (platform : String) : Option PlatformConfig :=
  if platform == "linux" then some CONFIG_linux
  else if platform == "windows" then some CONFIG_windows
  else none

/-! ## Materialization (`Extractor.copy_files`, lines 231-241) -/

/-- A file-system object at a path: a regular file with its byte content,
or a symbolic link with its target string (`os.readlink`). -/
inductive FSEntry where
  | file (content : String)
  | link (target : String)
deriving DecidableEq

/-- `os.path.basename`: the part after the last separator. -/
def baseName (p : String) : String :=
  ⟨(splitOnChar '/' p.data).getLastD p.data⟩

/-- A directory's contents as an association list from entry name to
file-system object; lookup finds the first binding. -/
def lookupDir (dest : List (String × FSEntry)) (name : String) : Option FSEntry :=
  (dest.find? (fun kv => kv.1 == name)).map (fun kv => kv.2)

/-- Overwrite (or create) the binding of `name` in a directory. -/
def updateDir (dest : List (String × FSEntry)) (name : String) (e : FSEntry) :
    List (String × FSEntry) :=
  dest.filter (fun kv => kv.1 != name) ++ [(name, e)]

/-- Whether a file-system object is a symbolic link (`os.path.islink`). -/
def isLinkEntry : FSEntry → Bool
  | .link _ => true
  | .file _ => false

/-- The one error the copy loop itself can raise: `os.symlink` fails with
`FileExistsError` when the destination name already exists (unlike
`shutil.copy`, it never overwrites). -/
inductive CopyError where
  | fileExists (name : String)
deriving DecidableEq

/-- The loop at the end of `Extractor.copy_files`: for each resolved
source path (paired with what the file system holds there), a symlink is
recreated at the destination under the same basename with the identical
target string (`os.symlink(os.readlink(fn), join(output_dir, basename(fn)))`),
and anything else is byte-copied by `shutil.copy`, which overwrites an
existing destination file of the same name. -/
def copy_files_materialize (src : List (String × FSEntry))
    (dest : List (String × FSEntry)) :
    Except CopyError (List (String × FSEntry)) :=
  match src with
  | [] => .ok dest
  | (p, e) :: rest =>
    match e with
    | .link t =>
      if (lookupDir dest (baseName p)).isSome then
        .error (.fileExists (baseName p))
      else
        copy_files_materialize rest (updateDir dest (baseName p) (.link t))
    | .file c =>
      copy_files_materialize rest (updateDir dest (baseName p) (.file c))

/-! ## The Windows extractor (`WindowsExtractor.extract`, lines 262-322) -/

/-- The flat `DLLs` staging directory, as an association list from the
filename to the directory it was copied from.  `Path(join(store,
filename)).is_file()` is membership of the filename; a copy appends a new
binding. -/
def addIfAbsent (path : String) (store : List (String × String)) (filename : String) :
    List (String × String) :=
  if store.any (fun kv => kv.1 == filename) then store
  else store ++ [(filename, path)]

/-- Lookup in the staging directory: the directory a filename was first
copied from, if any. -/
def lookupStore (store : List (String × String)) (filename : String) : Option String :=
  (store.find? (fun kv => kv.1 == filename)).map (fun kv => kv.2)

/-- One `for filename in fnmatch.filter(files, pattern): if not present:
copy` pass over the files of a single walked directory. -/
def addAll (path : String) :
    List (String × String) → List String → List (String × String)
  | store, [] => store
  | store, f :: rest => addAll path (addIfAbsent path store f) rest

/-- The walk filter of line 290: a directory is skipped when its path
contains `jre` or `GFExperience` as a substring. -/
def excludedPath (path : String) : Bool :=
  strContains path "jre" || strContains path "GFExperience"

/-- Processing of one `os.walk` triple (lines 289-308): unless the path
is excluded, copy its first-seen `*.dll` files, then its first-seen
`*.lib` files, then its first-seen `*.bc` files into the staging
directory. -/
def flattenDir (store : List (String × String)) (path : String) (files : List String) :
    List (String × String) :=
  if excludedPath path then store
  else
    addAll path
      (addAll path
        (addAll path store (files.filter (fun f => fnmatch f "*.dll")))
        (files.filter (fun f => fnmatch f "*.lib")))
      (files.filter (fun f => fnmatch f "*.bc"))

/-- The three filename patterns the flatten step collects. -/
def isCollectedExt (f : String) : Bool :=
  fnmatch f "*.dll" || fnmatch f "*.lib" || fnmatch f "*.bc"

/-- Fold `flattenDir` over a walk (list of `(path, files)` pairs with
the `dirs` component dropped, in `os.walk` traversal order). -/
def flattenAcc : List (String × String) → List (String × List String) →
    List (String × String)
  | store, [] => store
  | store, (path, files) :: rest => flattenAcc (flattenDir store path files) rest

/-- The whole flatten step, starting from the freshly created empty
`DLLs` directory. -/
def flattenStore (tree : List (String × List String)) : List (String × String) :=
  flattenAcc [] tree

/-- `nvt_path = os.environ.get('NVTOOLSEXT_INSTALL_PATH', self.nvtoolsextpath)`
(line 277): the environment value when the variable is set, otherwise the
static per-platform default. -/
def nvtPathOf (env dflt : Option String) : Option String :=
  match env with
  | some v => some v
  | none => dflt

/-- The validation of lines 279-283: a resolved-but-not-a-directory path
raises `ValueError` (the `InvalidPathError` of the specification); an
unresolved path passes. -/
def nvtCheck (isDir : String → Bool) (nvt : Option String) : Except String Unit :=
  match nvt with
  | some p =>
    if isDir p then .ok ()
    else .error "NVTOOLSEXT_INSTALL_PATH is invalid or inaccessible."
  | none => .ok ()

/-- The walk of lines 310-316 over the NvToolsExt tree: copy each
`*.dll` file not yet present in the staging directory (no exclusion
filter here, and only the `.dll` pattern). -/
def mergeWalk : List (String × String) → List (String × List String) →
    List (String × String)
  | store, [] => store
  | store, (path, files) :: rest =>
    mergeWalk (addAll path store (files.filter (fun f => fnmatch f "*.dll"))) rest

/-- The NvToolsExt merge step (lines 309-316): only runs when a path
resolved. -/
def nvtMerge (nvt : Option String) (tree : List (String × List String))
    (store : List (String × String)) : List (String × String) :=
  match nvt with
  | none => store
  | some _ => mergeWalk store tree

/-- Errors visible inside `WindowsExtractor.extract`: `permissionError`
is Python's `PermissionError` (raisable by any of the file operations in
the block and by the `TemporaryDirectory` cleanup), `processError` a
non-zero `check_call`, `invalidPath` the `ValueError` of the NvToolsExt
validation, `resolveError` an error out of `get_paths` during the
collect/copy step. -/
inductive WinError where
  | permissionError
  | processError (cmd : String)
  | invalidPath
  | resolveError (e : PathsError)
deriving DecidableEq

/-- Sequence a list of step outcomes, stopping at the first error: the
patch loop of lines 273-275. -/
def seqSteps : List (Except WinError Unit) → Except WinError Unit
  | [] => .ok ()
  | s :: rest => do
    let _ ← s
    seqSteps rest

/-- One run of the Windows extraction block, with the outcome of each
file-system / subprocess step given as data: `unpack` is the `7za x` of
the blob, `patchResults` the `7za x -aoa` calls in configured order,
`nvtEnv`/`nvtDefault` the environment override and static default for
NvToolsExt, `nvtIsDir` the `Path(nvt_path).is_dir()` test, `flatten` the
walk-and-copy into `DLLs`, `merge` the NvToolsExt walk, `collect` the
`self.copy(store)` resolution-and-copy, `cleanup` the temporary-directory
removal performed when the `with tempdir()` block exits. -/
structure WinRun where
  unpack : Except WinError Unit
  patchResults : List (Except WinError Unit)
  nvtEnv : Option String
  nvtDefault : Option String
  nvtIsDir : String → Bool
  flatten : Except WinError Unit
  merge : Except WinError Unit
  collect : Except WinError Unit
  cleanup : Except WinError Unit

/-- The body of the `try:` block of `WindowsExtractor.extract` (lines
266-317 plus the tempdir cleanup): steps run in source order, the first
error aborting the rest. -/
def windowsExtractBody (run : WinRun) : Except WinError Unit := do
  let _ ← run.unpack
  let _ ← seqSteps run.patchResults
  let _ ←
    match nvtPathOf run.nvtEnv run.nvtDefault with
    | some p => if run.nvtIsDir p then Except.ok () else Except.error WinError.invalidPath
    | none => Except.ok ()
  let _ ← run.flatten
  let _ ←
    match nvtPathOf run.nvtEnv run.nvtDefault with
    | some _ => run.merge
    | none => Except.ok ()
  let _ ← run.collect
  run.cleanup

/-- `WindowsExtractor.extract`: the whole block above wrapped in
`try: ... except PermissionError: pass` (lines 265 and 318-322), so a
`PermissionError` from any step makes `extract` return normally. -/
def windowsExtract (run : WinRun) : Except WinError Unit :=
  match windowsExtractBody run with
  | .error .permissionError => .ok ()
  | r => r

/-- A fully successful Windows run, used as a base point for evaluating
`windowsExtract` at runs failing in individual stages. -/
def wRunBase : WinRun :=
  { unpack := .ok ()
    patchResults := [.ok ()]
    nvtEnv := none
    nvtDefault := some "c:\\nvt"
    nvtIsDir := fun p => p == "c:\\nvt"
    flatten := .ok ()
    merge := .ok ()
    collect := .ok ()
    cleanup := .ok () }

end Build

/-! Concrete evaluations checking that the embedding is executable and
behaves as the script does on small inputs. -/

section EvalChecks

open Build

example : fnmatch "libfoo.so.2" "libfoo.so*" = true := by decide

example : formatOne "lib{0}.so*" "foo" = "libfoo.so*" := by decide

example : strContains "a/jre/b" "jre" = true := by decide

example : strContains "a/b/c" "jre" = false := by decide

example :
    get_paths true
      [⟨"libfoo.so.1", false, true⟩, ⟨"libfoo.so.2", true, true⟩, ⟨"libfoo.so.3", false, true⟩]
      "/d" ["foo"] "lib{0}.so*" =
    .ok ["/d/libfoo.so.2", "/d/libfoo.so.3"] := by rfl

example : trailingColons line137 = 2 := by decide

example : trailingColons "        else:" = 1 := by decide

example : baseName "/tmp/x/liba.so" = "liba.so" := by decide

example :
    copy_files_materialize [("/s/a.so.2", .link "a.so.2.1"), ("/s/a.so.2.1", .file "XYZ")]
      [("a.so.2.1", .file "OLD")] =
    .ok [("a.so.2", FSEntry.link "a.so.2.1"), ("a.so.2.1", FSEntry.file "XYZ")] := by rfl

example :
    flattenStore [("/t/a", ["x.dll", "y.lib"]), ("/t/b/c", ["x.dll", "z.bc"])] =
    [("x.dll", "/t/a"), ("y.lib", "/t/a"), ("z.bc", "/t/b/c")] := by rfl

example :
    flattenStore [("/t/jre/a", ["x.dll"]), ("/t/b", ["x.dll"])] =
    [("x.dll", "/t/b")] := by rfl

end EvalChecks

namespace Build

/-! ## Supporting lemmas -/

theorem ltChars_iff : ∀ (a b : List Char), ltChars a b = true ↔ List.Lex (· < ·) a b := by
  intro a
  induction a with
  | nil =>
    intro b
    cases b with
    | nil => exact iff_of_false (by simp [ltChars]) (fun h => by cases h)
    | cons c cs => exact iff_of_true (by simp [ltChars]) List.Lex.nil
  | cons x xs ih =>
    intro b
    cases b with
    | nil => exact iff_of_false (by simp [ltChars]) (fun h => by cases h)
    | cons c cs =>
      simp only [ltChars]
      by_cases h1 : x < c
      · rw [if_pos h1]
        exact iff_of_true rfl (List.Lex.rel h1)
      · by_cases h2 : c < x
        · rw [if_neg h1, if_pos h2]
          refine iff_of_false (by simp) ?_
          intro h
          cases h with
          | cons h => exact lt_irrefl x h2
          | rel h => exact h1 h
        · have hx : x = c := le_antisymm (not_lt.mp h2) (not_lt.mp h1)
          subst hx
          rw [if_neg h1, if_neg h2, ih cs]
          constructor
          · intro h
            exact List.Lex.cons h
          · intro h
            cases h with
            | cons h => exact h
            | rel h => exact absurd h h1

/-- `strLt` computes the order `<` of `String`. -/
theorem strLt_iff (a b : String) : strLt a b = true ↔ a < b := by
  rw [String.lt_iff_toList_lt]
  exact ltChars_iff a.data b.data

theorem lookupStore_eq_none_iff {st : List (String × String)} {f : String} :
    lookupStore st f = none ↔ st.find? (fun kv => kv.1 == f) = none := by
  unfold lookupStore
  cases st.find? (fun kv => kv.1 == f) <;> simp

theorem lookupStore_append_of_some {st1 st2 : List (String × String)} {f d : String}
    (h : lookupStore st1 f = some d) : lookupStore (st1 ++ st2) f = some d := by
  unfold lookupStore at h ⊢
  rw [List.find?_append]
  cases hf : st1.find? (fun kv => kv.1 == f) with
  | none => rw [hf] at h; cases h
  | some kv =>
    rw [hf] at h
    simp only [Option.or_some]
    exact h

theorem lookupStore_append_of_none {st1 st2 : List (String × String)} {f : String}
    (h : lookupStore st1 f = none) : lookupStore (st1 ++ st2) f = lookupStore st2 f := by
  unfold lookupStore at h ⊢
  rw [List.find?_append]
  cases hf : st1.find? (fun kv => kv.1 == f) with
  | none => simp only [Option.none_or]
  | some kv => rw [hf] at h; cases h

theorem lookupStore_addIfAbsent_of_some {p : String} {st : List (String × String)}
    {g f d : String} (h : lookupStore st f = some d) :
    lookupStore (addIfAbsent p st g) f = some d := by
  unfold addIfAbsent
  split
  · exact h
  · exact lookupStore_append_of_some h

theorem lookupStore_addIfAbsent_self {p : String} {st : List (String × String)} {f : String}
    (h : lookupStore st f = none) : lookupStore (addIfAbsent p st f) f = some p := by
  have hfind : st.find? (fun kv => kv.1 == f) = none := lookupStore_eq_none_iff.mp h
  have hany : st.any (fun kv => kv.1 == f) = false := by
    cases ha : st.any (fun kv => kv.1 == f) with
    | false => rfl
    | true =>
      rw [List.any_eq_true] at ha
      obtain ⟨kv, hin, hb⟩ := ha
      rw [List.find?_eq_none] at hfind
      exact absurd hb (hfind kv hin)
  unfold addIfAbsent
  rw [hany]
  simp only [Bool.false_eq_true, if_false]
  rw [lookupStore_append_of_none h]
  simp [lookupStore]

theorem lookupStore_addIfAbsent_other {p : String} {st : List (String × String)}
    {g f : String} (hne : g ≠ f) :
    lookupStore (addIfAbsent p st g) f = lookupStore st f := by
  unfold addIfAbsent
  split
  · rfl
  · cases h : lookupStore st f with
    | some d => exact lookupStore_append_of_some h
    | none =>
      rw [lookupStore_append_of_none h]
      simp only [lookupStore, List.find?]
      have : (g == f) = false := beq_eq_false_iff_ne.mpr hne
      simp [this]

theorem lookupStore_addAll_of_some {p : String} :
    ∀ {files : List String} {st : List (String × String)} {f d : String},
      lookupStore st f = some d → lookupStore (addAll p st files) f = some d := by
  intro files
  induction files with
  | nil => intro st f d h; exact h
  | cons g gs ih =>
    intro st f d h
    exact ih (lookupStore_addIfAbsent_of_some h)

theorem lookupStore_addAll_self {p : String} :
    ∀ {files : List String} {st : List (String × String)} {f : String},
      lookupStore st f = none → f ∈ files → lookupStore (addAll p st files) f = some p := by
  intro files
  induction files with
  | nil => intro st f _ hf; cases hf
  | cons g gs ih =>
    intro st f h hf
    by_cases hg : g = f
    · subst hg
      have h1 : lookupStore (addIfAbsent p st g) g = some p :=
        lookupStore_addIfAbsent_self h
      show lookupStore (addAll p (addIfAbsent p st g) gs) g = some p
      exact lookupStore_addAll_of_some h1
    · have h2 : lookupStore (addIfAbsent p st g) f = none := by
        rw [lookupStore_addIfAbsent_other hg]; exact h
      have hf2 : f ∈ gs := by
        rcases List.mem_cons.mp hf with h | h
        · exact absurd h.symm hg
        · exact h
      exact ih h2 hf2

theorem lookupStore_addAll_of_none {p : String} :
    ∀ {files : List String} {st : List (String × String)} {f : String},
      lookupStore st f = none → f ∉ files → lookupStore (addAll p st files) f = none := by
  intro files
  induction files with
  | nil => intro st f h _; exact h
  | cons g gs ih =>
    intro st f h hf
    have hg : g ≠ f := fun hgf => hf (hgf ▸ List.mem_cons_self g gs)
    have h2 : lookupStore (addIfAbsent p st g) f = none := by
      rw [lookupStore_addIfAbsent_other hg]; exact h
    exact ih h2 (fun hin => hf (List.mem_cons_of_mem g hin))

theorem lookupStore_flattenDir_of_some {st : List (String × String)}
    {path f d : String} {files : List String} (h : lookupStore st f = some d) :
    lookupStore (flattenDir st path files) f = some d := by
  unfold flattenDir
  split
  · exact h
  · exact lookupStore_addAll_of_some (lookupStore_addAll_of_some
      (lookupStore_addAll_of_some h))

/-- If `f` is absent from the staging directory, is one of the walked
files, is not excluded and matches a collected pattern, `flattenDir`
records it as copied from the walked directory. -/
theorem lookupStore_flattenDir_self {st : List (String × String)}
    {path f : String} {files : List String} (h : lookupStore st f = none)
    (hex : excludedPath path = false) (hf : f ∈ files) (hc : isCollectedExt f = true) :
    lookupStore (flattenDir st path files) f = some path := by
  unfold flattenDir
  rw [hex]
  simp only [Bool.false_eq_true, if_false]
  by_cases hdll : fnmatch f "*.dll" = true
  · have h1 : lookupStore (addAll path st (files.filter (fun f => fnmatch f "*.dll"))) f =
        some path :=
      lookupStore_addAll_self h (List.mem_filter.mpr ⟨hf, hdll⟩)
    exact lookupStore_addAll_of_some (lookupStore_addAll_of_some h1)
  · have hn1 : lookupStore (addAll path st (files.filter (fun f => fnmatch f "*.dll"))) f =
        none :=
      lookupStore_addAll_of_none h
        (fun hin => hdll (List.mem_filter.mp hin).2)
    by_cases hlib : fnmatch f "*.lib" = true
    · have h2 : lookupStore (addAll path
          (addAll path st (files.filter (fun f => fnmatch f "*.dll")))
          (files.filter (fun f => fnmatch f "*.lib"))) f = some path :=
        lookupStore_addAll_self hn1 (List.mem_filter.mpr ⟨hf, hlib⟩)
      exact lookupStore_addAll_of_some h2
    · have hbc : fnmatch f "*.bc" = true := by
        unfold isCollectedExt at hc
        rcases Bool.or_eq_true_iff.mp hc with h' | h'
        · rcases Bool.or_eq_true_iff.mp h' with h'' | h''
          · exact absurd h'' hdll
          · exact absurd h'' hlib
        · exact h'
      have hn2 : lookupStore (addAll path
          (addAll path st (files.filter (fun f => fnmatch f "*.dll")))
          (files.filter (fun f => fnmatch f "*.lib"))) f = none :=
        lookupStore_addAll_of_none hn1
          (fun hin => hlib (List.mem_filter.mp hin).2)
      exact lookupStore_addAll_self hn2 (List.mem_filter.mpr ⟨hf, hbc⟩)

theorem lookupStore_flattenAcc_of_some :
    ∀ {tree : List (String × List String)} {st : List (String × String)} {f d : String},
      lookupStore st f = some d → lookupStore (flattenAcc st tree) f = some d := by
  intro tree
  induction tree with
  | nil => intro st f d h; exact h
  | cons pd rest ih =>
    intro st f d h
    cases pd with
    | mk path files => exact ih (lookupStore_flattenDir_of_some h)

theorem lookupStore_mergeWalk_of_some :
    ∀ {tree : List (String × List String)} {st : List (String × String)} {f d : String},
      lookupStore st f = some d → lookupStore (mergeWalk st tree) f = some d := by
  intro tree
  induction tree with
  | nil => intro st f d h; exact h
  | cons pd rest ih =>
    intro st f d h
    cases pd with
    | mk path files => exact ih (lookupStore_addAll_of_some h)

theorem lookupStore_mergeWalk_of_none :
    ∀ {tree : List (String × List String)} {st : List (String × String)} {f : String},
      lookupStore st f = none →
      (∀ path files, (path, files) ∈ tree → f ∉ files ∨ fnmatch f "*.dll" = false) →
      lookupStore (mergeWalk st tree) f = none := by
  intro tree
  induction tree with
  | nil => intro st f h _; exact h
  | cons pd rest ih =>
    intro st f h htree
    cases pd with
    | mk path files =>
      have hstep : lookupStore (addAll path st
          (files.filter (fun g => fnmatch g "*.dll"))) f = none := by
        refine lookupStore_addAll_of_none h (fun hin => ?_)
        rcases htree path files (List.mem_cons_self _ _) with h' | h'
        · exact h' (List.mem_filter.mp hin).1
        · rw [(List.mem_filter.mp hin).2] at h'
          cases h'
      exact ih hstep (fun q fs hq => htree q fs (List.mem_cons_of_mem _ hq))

theorem lookupStore_mergeWalk_isSome :
    ∀ {tree : List (String × List String)} {st : List (String × String)} {f : String},
      (∃ path files, (path, files) ∈ tree ∧ f ∈ files ∧ fnmatch f "*.dll" = true) →
      (lookupStore (mergeWalk st tree) f).isSome = true := by
  intro tree
  induction tree with
  | nil =>
    intro st f h
    obtain ⟨_, _, hmem, _⟩ := h
    cases hmem
  | cons pd rest ih =>
    intro st f h
    cases pd with
    | mk path files =>
      obtain ⟨q, fs, hmem, hin, hdll⟩ := h
      show (lookupStore (mergeWalk (addAll path st
        (files.filter (fun g => fnmatch g "*.dll"))) rest) f).isSome = true
      rcases List.mem_cons.mp hmem with heq | htail
      · cases heq
        cases hst : lookupStore (addAll path st
            (files.filter (fun g => fnmatch g "*.dll"))) f with
        | some d =>
          rw [lookupStore_mergeWalk_of_some hst]
          rfl
        | none =>
          exfalso
          cases hpre : lookupStore st f with
          | some d =>
            rw [lookupStore_addAll_of_some hpre] at hst
            cases hst
          | none =>
            rw [lookupStore_addAll_self hpre
              (List.mem_filter.mpr ⟨hin, hdll⟩)] at hst
            cases hst
      · cases hst : lookupStore (addAll path st
            (files.filter (fun g => fnmatch g "*.dll"))) f with
        | some d =>
          rw [lookupStore_mergeWalk_of_some hst]
          rfl
        | none => exact ih ⟨q, fs, htail, hin, hdll⟩

/-- The fold of Python `max` over a nonempty list: the result is an
element of the list and no element is strictly greater. -/
theorem foldlMax_spec (key : Entry → String) :
    ∀ (es : List Entry) (a : Entry),
      (es.foldl (fun x y => if strLt (key x) (key y) then y else x) a) ∈ a :: es ∧
      ∀ x ∈ a :: es,
        ¬ key (es.foldl (fun x y => if strLt (key x) (key y) then y else x) a) < key x := by
  intro es
  induction es with
  | nil =>
    intro a
    refine ⟨List.mem_singleton_self a, ?_⟩
    intro x hx
    rw [List.mem_singleton] at hx
    subst hx
    exact lt_irrefl _
  | cons b bs ih =>
    intro a
    have step :
        (b :: bs).foldl (fun x y => if strLt (key x) (key y) then y else x) a =
        bs.foldl (fun x y => if strLt (key x) (key y) then y else x)
          (if strLt (key a) (key b) then b else a) := by
      simp [List.foldl_cons]
    obtain ⟨ihmem, ihmax⟩ := ih (if strLt (key a) (key b) then b else a)
    constructor
    · rw [step]
      rcases List.mem_cons.mp ihmem with heq | htail
      · rw [heq]
        by_cases hab : strLt (key a) (key b) = true
        · rw [if_pos hab]
          exact List.mem_cons_of_mem a (List.mem_cons_self b bs)
        · rw [if_neg hab]
          exact List.mem_cons_self a (b :: bs)
      · exact List.mem_cons_of_mem a (List.mem_cons_of_mem b htail)
    · intro x hx
      rw [step]
      rcases List.mem_cons.mp hx with hxa | hx2
      · rw [hxa]
        by_cases hab : strLt (key a) (key b) = true
        · rw [if_pos hab]
          have hb := ihmax (if strLt (key a) (key b) then b else a)
            (List.mem_cons_self _ _)
          rw [if_pos hab] at hb
          have hlt : key a < key b := (strLt_iff _ _).mp hab
          intro hcon
          exact hb (lt_trans hcon hlt)
        · rw [if_neg hab]
          have hb := ihmax (if strLt (key a) (key b) then b else a)
            (List.mem_cons_self _ _)
          rw [if_neg hab] at hb
          exact hb
      · rcases List.mem_cons.mp hx2 with hxb | hxtail
        · rw [hxb]
          by_cases hab : strLt (key a) (key b) = true
          · rw [if_pos hab]
            have hb := ihmax (if strLt (key a) (key b) then b else a)
              (List.mem_cons_self _ _)
            rw [if_pos hab] at hb
            exact hb
          · rw [if_neg hab]
            have hble : key b ≤ key a := by
              have hnlt : ¬ key a < key b := fun hcon => hab ((strLt_iff _ _).mpr hcon)
              exact not_lt.mp hnlt
            have hb := ihmax (if strLt (key a) (key b) then b else a)
              (List.mem_cons_self _ _)
            rw [if_neg hab] at hb
            intro hcon
            exact hb (lt_of_lt_of_le hcon hble)
        · by_cases hab : strLt (key a) (key b) = true
          · rw [if_pos hab]
            have hb := ihmax x (List.mem_cons_of_mem _ hxtail)
            rw [if_pos hab] at hb
            exact hb
          · rw [if_neg hab]
            have hb := ihmax x (List.mem_cons_of_mem _ hxtail)
            rw [if_neg hab] at hb
            exact hb

/-- Folding `List.erase` over a removal list, on a duplicate-free list,
removes exactly the removal list's members. -/
theorem mem_foldl_erase :
    ∀ (rs l : List Entry), l.Nodup →
      ∀ a, (a ∈ rs.foldl (fun acc x => acc.erase x) l ↔ a ∈ l ∧ a ∉ rs) := by
  intro rs
  induction rs with
  | nil =>
    intro l _ a
    simp
  | cons r rsTail ih =>
    intro l hl a
    simp only [List.foldl_cons]
    rw [ih (l.erase r) (hl.erase r), hl.mem_erase_iff]
    simp only [List.mem_cons]
    constructor
    · rintro ⟨⟨hne, hmem⟩, hnot⟩
      exact ⟨hmem, fun h => h.elim hne hnot⟩
    · rintro ⟨hmem, hnot⟩
      exact ⟨⟨fun h => hnot (Or.inl h), hmem⟩, fun h => hnot (Or.inr h)⟩

theorem find?_filter_ne (n m : String) (hne : m ≠ n) :
    ∀ (d : List (String × FSEntry)),
      (d.filter (fun kv => kv.1 != n)).find? (fun kv => kv.1 == m) =
        d.find? (fun kv => kv.1 == m) := by
  intro d
  induction d with
  | nil => rfl
  | cons kv tl ih =>
    by_cases hk : kv.1 = n
    · have hdrop : (kv.1 != n) = false := by
        rw [bne_eq_false_iff_eq]
        exact hk
      have hnm : (kv.1 == m) = false := by
        rw [beq_eq_false_iff_ne]
        rw [hk]
        exact fun hc => hne hc.symm
      simp only [List.filter_cons, List.find?_cons, hdrop, hnm,
        Bool.false_eq_true, if_false]
      exact ih
    · have hkeep : (kv.1 != n) = true := bne_iff_ne.mpr hk
      simp only [List.filter_cons, hkeep, if_true]
      cases hm : (kv.1 == m) with
      | true => simp only [List.find?_cons, hm, if_true]
      | false =>
        simp only [List.find?_cons, hm, Bool.false_eq_true, if_false]
        exact ih

theorem lookupDir_updateDir_self (d : List (String × FSEntry)) (n : String) (e : FSEntry) :
    lookupDir (updateDir d n e) n = some e := by
  unfold updateDir lookupDir
  rw [List.find?_append]
  have hnone : (d.filter (fun kv => kv.1 != n)).find? (fun kv => kv.1 == n) = none := by
    rw [List.find?_eq_none]
    intro kv hkv
    have := (List.mem_filter.mp hkv).2
    rw [bne_iff_ne] at this
    rw [beq_eq_false_iff_ne.mpr this]
    exact Bool.false_ne_true
  rw [hnone]
  simp

theorem lookupDir_updateDir_other (d : List (String × FSEntry)) (n m : String)
    (e : FSEntry) (hne : m ≠ n) :
    lookupDir (updateDir d n e) m = lookupDir d m := by
  unfold updateDir lookupDir
  rw [List.find?_append, find?_filter_ne n m hne d]
  cases hm : d.find? (fun kv => kv.1 == m) with
  | some kv => rfl
  | none =>
    have hlast : ([(n, e)].find? (fun kv => kv.1 == m)) = none := by
      rw [List.find?_eq_none]
      intro kv hkv
      rw [List.mem_singleton] at hkv
      rw [hkv]
      rw [beq_eq_false_iff_ne.mpr (fun hc => hne hc.symm)]
      exact Bool.false_ne_true
    rw [hlast]
    rfl

/-- Resolving a single library name through `get_paths` is resolving it
through the loop body once. -/
theorem get_paths_singleton (symlinks : Bool) (dirlist : List Entry)
    (dirpath libname template : String) :
    get_paths symlinks dirlist dirpath [libname] template =
      getPathsOne symlinks dirlist dirpath libname template := by
  unfold get_paths
  cases h : getPathsOne symlinks dirlist dirpath libname template with
  | error e => rfl
  | ok ps =>
    show Except.ok (ps ++ []) = Except.ok ps
    rw [List.append_nil]

/-- Reduction of the symlink-mode branch of `getPathsOne`: with a
nonempty match list, every match a file, and `max` over the concrete
matches returning `target`, the result is the match list with the
non-`target` concrete entries erased, joined to the directory. -/
theorem getPathsOne_symlinks_reduce
    (dirlist : List Entry) (dirpath libname template : String) (target : Entry)
    (hne : dirlist.filter (fun e => fnmatch e.name (formatOne template libname)) ≠ [])
    (hfile : ∀ e ∈ dirlist.filter (fun e => fnmatch e.name (formatOne template libname)),
      e.isFile = true)
    (hmax : pyMaxEntry dirpath
      ((dirlist.filter (fun e => fnmatch e.name (formatOne template libname))).filter
        (fun e => !e.isLink)) = some target) :
    getPathsOne true dirlist dirpath libname template =
      .ok (((((dirlist.filter
              (fun e => fnmatch e.name (formatOne template libname))).filter
              (fun e => !e.isLink)).erase target).foldl
            (fun acc x => acc.erase x)
            (dirlist.filter (fun e => fnmatch e.name (formatOne template libname)))).map
          (fun e => joinPath dirpath e.name)) := by
  simp only [getPathsOne]
  have hie : (dirlist.filter
      (fun e => fnmatch e.name (formatOne template libname))).isEmpty = false := by
    cases hl : dirlist.filter (fun e => fnmatch e.name (formatOne template libname)) with
    | nil => exact absurd hl hne
    | cons a as => rfl
  rw [hie, if_neg Bool.false_ne_true]
  have hfind : (dirlist.filter
      (fun e => fnmatch e.name (formatOne template libname))).find?
      (fun e => !e.isFile) = none := by
    rw [List.find?_eq_none]
    intro x hx
    rw [hfile x hx]
    simp
  rw [hfind, hmax]
  rfl

/-- Abstract form of the symlink-mode disambiguation on an arbitrary
duplicate-free match list whose concrete sublist is nonempty: the `max`
target exists, is a concrete match no other concrete match exceeds, and
the erasure loop keeps exactly the symlinks plus the target. -/
theorem resolveKept_spec (dirpath : String) (paths : List Entry) (hN : paths.Nodup)
    (c : Entry) (cs : List Entry)
    (hconc : paths.filter (fun e => !e.isLink) = c :: cs) :
    ∃ target : Entry,
      pyMaxEntry dirpath (paths.filter (fun e => !e.isLink)) = some target ∧
      target ∈ paths ∧ target.isLink = false ∧
      (∀ e ∈ paths, e.isLink = false →
        ¬ joinPath dirpath target.name < joinPath dirpath e.name) ∧
      ∀ a : Entry,
        a ∈ ((paths.filter (fun e => !e.isLink)).erase target).foldl
            (fun acc x => acc.erase x) paths ↔
          a ∈ paths ∧ (a.isLink = true ∨ a = target) := by
  have hspec := foldlMax_spec (fun e => joinPath dirpath e.name) cs c
  set t := cs.foldl
    (fun a b => if strLt (joinPath dirpath a.name) (joinPath dirpath b.name) then b else a)
    c with ht
  have hmem : t ∈ c :: cs := hspec.1
  have hmax : ∀ x ∈ c :: cs, ¬ joinPath dirpath t.name < joinPath dirpath x.name := hspec.2
  have hmem2 : t ∈ paths.filter (fun e => !e.isLink) := by
    rw [hconc]
    exact hmem
  have htpaths : t ∈ paths := (List.mem_filter.mp hmem2).1
  have htlink : t.isLink = false := by
    have h2 := (List.mem_filter.mp hmem2).2
    cases hb : t.isLink with
    | false => rfl
    | true => rw [hb] at h2; simp at h2
  refine ⟨t, ?_, htpaths, htlink, ?_, ?_⟩
  · rw [hconc]
    rfl
  · intro e he hel
    have hin : e ∈ c :: cs := by
      rw [← hconc]
      refine List.mem_filter.mpr ⟨he, ?_⟩
      show (!e.isLink) = true
      rw [hel]
      rfl
    exact hmax e hin
  · intro a
    rw [mem_foldl_erase ((paths.filter (fun e => !e.isLink)).erase t) paths hN a]
    have hcN : (paths.filter (fun e => !e.isLink)).Nodup := List.Nodup.filter _ hN
    rw [hcN.mem_erase_iff]
    constructor
    · rintro ⟨hpa, hno⟩
      refine ⟨hpa, ?_⟩
      by_cases hat : a = t
      · exact Or.inr hat
      · left
        by_contra hl
        have hlf : a.isLink = false := by
          cases hb : a.isLink with
          | false => rfl
          | true => exact absurd hb hl
        refine hno ⟨hat, List.mem_filter.mpr ⟨hpa, ?_⟩⟩
        show (!a.isLink) = true
        rw [hlf]
        rfl
    · rintro ⟨hpa, hcase⟩
      refine ⟨hpa, ?_⟩
      rintro ⟨hne2, hinc⟩
      rcases hcase with hl | hteq
      · have h2 := (List.mem_filter.mp hinc).2
        rw [hl] at h2
        simp at h2
      · exact hne2 hteq

/-! ## Claim theorems -/

/-- C2: whenever a library name's glob pattern matches zero entries of the
directory listing, resolution fails with the cannot-find `RuntimeError`
(the `NotFoundError` of the specification), carrying the library name and
the formatted pattern, and returns no paths. -/
theorem get_paths_zero_matches_notFound
    (symlinks : Bool) (dirlist : List Entry) (dirpath libname template : String)
    (h : dirlist.filter (fun e => fnmatch e.name (formatOne template libname)) = []) :
    get_paths symlinks dirlist dirpath [libname] template =
      .error (.notFound libname (formatOne template libname)) := by
  rw [get_paths_singleton]
  simp only [getPathsOne]
  rw [h]
  rfl

/-- Witness for C2: a listing holding only `libbar.so.1` has no match for
`foo` under the template `lib{0}.so*`, and resolution reports the name and
the pattern `libfoo.so*`. -/
theorem get_paths_zero_matches_notFound_witness :
    get_paths true [⟨"libbar.so.1", false, true⟩] "/d" ["foo"] "lib{0}.so*" =
      .error (.notFound "foo" "libfoo.so*") :=
  get_paths_zero_matches_notFound true [⟨"libbar.so.1", false, true⟩] "/d" "foo"
    "lib{0}.so*" (by decide)

/-- C3: in non-alias-tolerant mode (`self.symlinks` false, the Windows
mode) a library name whose pattern matches two or more entries makes
resolution fail with the aliasing `RuntimeError` (the
`AmbiguousMatchError` of the specification) instead of returning any of
the matches. -/
theorem get_paths_multi_match_ambiguous
    (dirlist : List Entry) (dirpath libname template : String)
    (h : 2 ≤ (dirlist.filter (fun e => fnmatch e.name (formatOne template libname))).length) :
    get_paths false dirlist dirpath [libname] template =
      .error (.ambiguous libname (formatOne template libname)) := by
  rw [get_paths_singleton]
  simp only [getPathsOne]
  have hie : (dirlist.filter (fun e => fnmatch e.name (formatOne template libname))).isEmpty =
      false := by
    cases hl : dirlist.filter (fun e => fnmatch e.name (formatOne template libname)) with
    | nil => rw [hl] at h; simp at h
    | cons a as => rfl
  rw [hie, if_neg Bool.false_ne_true]
  have hlen : ((dirlist.filter
      (fun e => fnmatch e.name (formatOne template libname))).length != 1) = true := by
    rw [bne_iff_ne]
    omega
  rw [Bool.not_false, hlen]
  rfl

/-- Witness for C3: two entries match `foo64_1*.dll` in the Windows-mode
resolution and the ambiguity error is raised. -/
theorem get_paths_multi_match_ambiguous_witness :
    get_paths false [⟨"foo64_10.dll", false, true⟩, ⟨"foo64_11.dll", false, true⟩]
      "/d" ["foo"] "{0}64_1*.dll" =
      .error (.ambiguous "foo" "foo64_1*.dll") :=
  get_paths_multi_match_ambiguous
    [⟨"foo64_10.dll", false, true⟩, ⟨"foo64_11.dll", false, true⟩]
    "/d" "foo" "{0}64_1*.dll" (by decide)

/-- C4: no version string is ever validated by the program.  Line 137 of
the source, `elif len(version_parts) > 2::`, ends in two colons where the
Python grammar admits exactly one on a compound-statement header, so the
module fails to compile: every run -- with `11`, `a.b.c` or any other
version string -- aborts with `SyntaxError` at import, never with the
invalid-version `ValueError` of line 140, and no string is ever
accepted. -/
theorem version_check_unreachable :
    trailingColons line137 = 2 ∧
    moduleLoad = .error "SyntaxError: invalid syntax (line 137)" :=
  ⟨by rfl, by rfl⟩

/-- C9: no configuration record is ever written.  The module aborts at
load with the line-137 `SyntaxError`, so `main` never runs and
`dump_config` (the single write site) is never reached; zero records are
written instead of the claimed one.  (Even under the obvious one-colon
repair of line 137 a record is still never written: the linux dispatch
of `main` passes two arguments to the three-parameter
`LinuxExtractor.__init__` of line 329, a `TypeError`, and the base
`Extractor.__init__` reads the unbound name `ver_config` at line 156, a
`NameError` -- both before `dump_config`.) -/
theorem no_config_record_written :
    configRecordsWritten = 0 ∧
    moduleLoad = .error "SyntaxError: invalid syntax (line 137)" :=
  ⟨by rfl, by rfl⟩

/-- C10: in symlink mode, a name whose (nonempty) matches are all
symbolic links makes resolution fail with the error of `max` applied to
an empty sequence (an uncaught `ValueError`), which is not the
cannot-find error raised for zero matches. -/
theorem get_paths_all_symlinks_crash
    (dirlist : List Entry) (dirpath libname template : String)
    (hne : dirlist.filter (fun e => fnmatch e.name (formatOne template libname)) ≠ [])
    (hfile : ∀ e ∈ dirlist.filter (fun e => fnmatch e.name (formatOne template libname)),
      e.isFile = true)
    (hlink : ∀ e ∈ dirlist.filter (fun e => fnmatch e.name (formatOne template libname)),
      e.isLink = true) :
    get_paths true dirlist dirpath [libname] template = .error .maxOfEmpty ∧
      ∀ n f, PathsError.maxOfEmpty ≠ PathsError.notFound n f := by
  constructor
  · rw [get_paths_singleton]
    simp only [getPathsOne]
    have hie : (dirlist.filter
        (fun e => fnmatch e.name (formatOne template libname))).isEmpty = false := by
      cases hl : dirlist.filter (fun e => fnmatch e.name (formatOne template libname)) with
      | nil => exact absurd hl hne
      | cons a as => rfl
    rw [hie, if_neg Bool.false_ne_true]
    have hfind : (dirlist.filter
        (fun e => fnmatch e.name (formatOne template libname))).find?
        (fun e => !e.isFile) = none := by
      rw [List.find?_eq_none]
      intro x hx
      rw [hfile x hx]
      simp
    rw [hfind]
    have hconc : (dirlist.filter
        (fun e => fnmatch e.name (formatOne template libname))).filter
        (fun e => !e.isLink) = [] := by
      rw [List.filter_eq_nil_iff]
      intro e he
      rw [hlink e he]
      simp
    rw [hconc]
    rfl
  · intro n f hcon
    cases hcon

/-- Witness for C10: a listing where both matches of `libfoo.so*` are
symlinks crashes with the empty-max error. -/
theorem get_paths_all_symlinks_crash_witness :
    get_paths true [⟨"libfoo.so", true, true⟩, ⟨"libfoo.so.11", true, true⟩]
      "/d" ["foo"] "lib{0}.so*" = .error .maxOfEmpty ∧
      ∀ n f, PathsError.maxOfEmpty ≠ PathsError.notFound n f :=
  get_paths_all_symlinks_crash
    [⟨"libfoo.so", true, true⟩, ⟨"libfoo.so.11", true, true⟩]
    "/d" "foo" "lib{0}.so*" (by decide) (by decide) (by decide)

/-- C6: the `except PermissionError: pass` of `WindowsExtractor.extract`
wraps the entire extraction block, so a `PermissionError` raised by any
step inside it -- not only the temporary-directory cleanup -- makes
`extract` return normally instead of propagating the error. -/
theorem windowsExtract_suppresses_permissionError (run : WinRun)
    (h : windowsExtractBody run = .error .permissionError) :
    windowsExtract run = .ok () := by
  unfold windowsExtract
  rw [h]

/-- Witness for C6: a `PermissionError` in archive unpacking, in the
flatten walk, in the NvToolsExt merge, in the collect/copy step, or in
cleanup each makes `extract` return normally. -/
theorem windowsExtract_suppresses_permissionError_witness :
    windowsExtract { wRunBase with unpack := .error .permissionError } = .ok () ∧
    windowsExtract { wRunBase with flatten := .error .permissionError } = .ok () ∧
    windowsExtract { wRunBase with merge := .error .permissionError } = .ok () ∧
    windowsExtract { wRunBase with collect := .error .permissionError } = .ok () ∧
    windowsExtract { wRunBase with cleanup := .error .permissionError } = .ok () :=
  ⟨windowsExtract_suppresses_permissionError _ rfl,
   windowsExtract_suppresses_permissionError _ rfl,
   windowsExtract_suppresses_permissionError _ rfl,
   windowsExtract_suppresses_permissionError _ rfl,
   windowsExtract_suppresses_permissionError _ rfl⟩

/-- C7: in the Windows flatten step, a filename already recorded in the
staging directory is never overwritten by any later walked directory, and
a not-yet-present filename of a collected kind found in a non-excluded
directory is recorded as coming from that directory; hence for two files
of the same name the first one encountered in traversal order wins. -/
theorem flatten_first_wins
    (st : List (String × String)) (rest : List (String × List String))
    (path f d : String) (files : List String) :
    (lookupStore st f = some d → lookupStore (flattenAcc st rest) f = some d) ∧
    (lookupStore st f = none → excludedPath path = false → f ∈ files →
      isCollectedExt f = true →
      lookupStore (flattenAcc st ((path, files) :: rest)) f = some path) := by
  constructor
  · intro h
    exact lookupStore_flattenAcc_of_some h
  · intro h hex hf hc
    show lookupStore (flattenAcc (flattenDir st path files) rest) f = some path
    exact lookupStore_flattenAcc_of_some (lookupStore_flattenDir_self h hex hf hc)

/-- Witness for C7: `x.dll` exists under both `/t/a` and `/t/b/c`; the
flat staging directory records the first-walked copy, from `/t/a`. -/
theorem flatten_first_wins_witness :
    lookupStore
      (flattenStore [("/t/a", ["x.dll"]), ("/t/b/c", ["x.dll", "y.lib"])]) "x.dll" =
      some "/t/a" :=
  (flatten_first_wins [] [("/t/b/c", ["x.dll", "y.lib"])] "/t/a" "x.dll" "/t/a"
    ["x.dll"]).2 rfl (by decide) (by decide) (by decide)

/-- C8: in the NvToolsExt merge step the environment override takes
precedence over the static default whenever it is set; a resolved path
that is not a real directory fails with the invalid-path `ValueError`; a
resolved real directory is walked and only `.dll` files not already
present in the staging directory are copied (present entries are kept,
non-dll names are never added, and an absent matching `.dll` is added);
and with no resolved path the merge is skipped entirely. -/
theorem nvtoolsext_step_spec
    (dflt : Option String) (v p f d : String) (isDir : String → Bool)
    (tree : List (String × List String)) (store : List (String × String)) :
    nvtPathOf (some v) dflt = some v ∧
    nvtPathOf none dflt = dflt ∧
    (isDir p = false → nvtCheck isDir (some p) =
      .error "NVTOOLSEXT_INSTALL_PATH is invalid or inaccessible.") ∧
    (isDir p = true → nvtCheck isDir (some p) = .ok ()) ∧
    (lookupStore store f = some d →
      lookupStore (nvtMerge (some p) tree store) f = some d) ∧
    (lookupStore store f = none →
      (∀ q files, (q, files) ∈ tree → f ∉ files ∨ fnmatch f "*.dll" = false) →
      lookupStore (nvtMerge (some p) tree store) f = none) ∧
    ((∃ q files, (q, files) ∈ tree ∧ f ∈ files ∧ fnmatch f "*.dll" = true) →
      (lookupStore (nvtMerge (some p) tree store) f).isSome = true) ∧
    nvtMerge none tree store = store := by
  refine ⟨rfl, rfl, ?_, ?_, ?_, ?_, ?_, rfl⟩
  · intro h
    show (if isDir p = true then (Except.ok () : Except String Unit)
      else Except.error "NVTOOLSEXT_INSTALL_PATH is invalid or inaccessible.") =
      Except.error "NVTOOLSEXT_INSTALL_PATH is invalid or inaccessible."
    rw [h]
    rfl
  · intro h
    show (if isDir p = true then (Except.ok () : Except String Unit)
      else Except.error "NVTOOLSEXT_INSTALL_PATH is invalid or inaccessible.") =
      Except.ok ()
    rw [h]
    rfl
  · intro h
    exact lookupStore_mergeWalk_of_some h
  · intro h htree
    exact lookupStore_mergeWalk_of_none h htree
  · intro hex
    exact lookupStore_mergeWalk_isSome hex

/-- Witness for C8: the override wins over the default; a bogus resolved
path fails the directory check; merging from a real NvToolsExt tree keeps
the already-present `a.dll`, adds the absent `b.dll`, and a `none` path
leaves the staging directory untouched. -/
theorem nvtoolsext_step_spec_witness :
    nvtPathOf (some "e:\\override") (some "c:\\dflt") = some "e:\\override" ∧
    nvtCheck (fun s => s == "c:\\real") (some "c:\\bogus") =
      .error "NVTOOLSEXT_INSTALL_PATH is invalid or inaccessible." ∧
    lookupStore (nvtMerge (some "c:\\real")
      [("c:\\real\\bin", ["a.dll", "b.dll"])] [("a.dll", "/t/x")]) "a.dll" =
      some "/t/x" ∧
    (lookupStore (nvtMerge (some "c:\\real")
      [("c:\\real\\bin", ["a.dll", "b.dll"])] [("a.dll", "/t/x")]) "b.dll").isSome =
      true ∧
    nvtMerge none [("c:\\real\\bin", ["a.dll"])] [("a.dll", "/t/x")] =
      [("a.dll", "/t/x")] := by
  have h1 := nvtoolsext_step_spec (some "c:\\dflt") "e:\\override" "c:\\bogus"
    "a.dll" "/t/x" (fun s => s == "c:\\real")
    [("c:\\real\\bin", ["a.dll", "b.dll"])] [("a.dll", "/t/x")]
  have h2 := nvtoolsext_step_spec (some "c:\\dflt") "e:\\override" "c:\\real"
    "a.dll" "/t/x" (fun s => s == "c:\\real")
    [("c:\\real\\bin", ["a.dll", "b.dll"])] [("a.dll", "/t/x")]
  have h3 := nvtoolsext_step_spec (some "c:\\dflt") "e:\\override" "c:\\real"
    "b.dll" "/t/x" (fun s => s == "c:\\real")
    [("c:\\real\\bin", ["a.dll"])] [("a.dll", "/t/x")]
  refine ⟨h1.1, h1.2.2.1 (by decide), h2.2.2.2.2.1 (by decide), ?_, h3.2.2.2.2.2.2.2⟩
  exact h2.2.2.2.2.2.2.1 ⟨"c:\\real\\bin", ["a.dll", "b.dll"], by decide, by decide, by decide⟩

/-- C5: materializing resolved paths into a destination directory with
duplicate-free basenames (and link names not already present, since
`os.symlink` never overwrites) succeeds, binds every source basename to
exactly the source object -- a symlink is recreated with the identical
target string (round trip) and a regular file's bytes are copied
verbatim, overwriting any existing file of that name -- and touches no
other destination name. -/
theorem copy_files_materialize_spec :
    ∀ (src dest : List (String × FSEntry)),
      (src.map (fun pe => baseName pe.1)).Nodup →
      (∀ pe ∈ src, isLinkEntry pe.2 = true → lookupDir dest (baseName pe.1) = none) →
      ∃ dest2, copy_files_materialize src dest = .ok dest2 ∧
        (∀ pe ∈ src, lookupDir dest2 (baseName pe.1) = some pe.2) ∧
        (∀ n, (∀ pe ∈ src, baseName pe.1 ≠ n) → lookupDir dest2 n = lookupDir dest n) := by
  intro src
  induction src with
  | nil =>
    intro dest _ _
    refine ⟨dest, rfl, ?_, ?_⟩
    · intro pe hpe
      cases hpe
    · intro n _
      rfl
  | cons pe0 rest ih =>
    intro dest hnodup hlinks
    obtain ⟨p, e⟩ := pe0
    rw [List.map_cons, List.nodup_cons] at hnodup
    obtain ⟨hbase_not, hnodup_rest⟩ := hnodup
    have hlinks2 : ∀ pe ∈ rest, isLinkEntry pe.2 = true →
        lookupDir (updateDir dest (baseName (p, e).1) e) (baseName pe.1) = none := by
      intro pe2 h2 hl
      rw [lookupDir_updateDir_other dest (baseName (p, e).1) (baseName pe2.1) e
        (fun hc => hbase_not (hc ▸ List.mem_map_of_mem (fun pe => baseName pe.1) h2))]
      exact hlinks pe2 (List.mem_cons_of_mem _ h2) hl
    have hfresh : ∀ pe2 ∈ rest, baseName pe2.1 ≠ baseName (p, e).1 := by
      intro pe2 h2 hc
      exact hbase_not (hc ▸ List.mem_map_of_mem (fun pe => baseName pe.1) h2)
    obtain ⟨dest2, hrun, hmem, huntouched⟩ :=
      ih (updateDir dest (baseName (p, e).1) e) hnodup_rest hlinks2
    have hself : lookupDir dest2 (baseName (p, e).1) = some e := by
      rw [huntouched (baseName (p, e).1) hfresh]
      exact lookupDir_updateDir_self dest (baseName (p, e).1) e
    have hkeep : ∀ n, (∀ pe ∈ (p, e) :: rest, baseName pe.1 ≠ n) →
        lookupDir dest2 n = lookupDir dest n := by
      intro n hn
      rw [huntouched n (fun pe2 h2 => hn pe2 (List.mem_cons_of_mem _ h2))]
      exact lookupDir_updateDir_other dest (baseName (p, e).1) n e
        (fun hc => hn (p, e) (List.mem_cons_self _ _) hc.symm)
    have hmem2 : ∀ pe ∈ (p, e) :: rest, lookupDir dest2 (baseName pe.1) = some pe.2 := by
      intro pe hpe
      rcases List.mem_cons.mp hpe with heq | htail
      · rw [heq]
        exact hself
      · exact hmem pe htail
    cases e with
    | link t =>
      have hnone : lookupDir dest (baseName (p, FSEntry.link t).1) = none :=
        hlinks (p, .link t) (List.mem_cons_self _ _) rfl
      refine ⟨dest2, ?_, hmem2, hkeep⟩
      show copy_files_materialize ((p, FSEntry.link t) :: rest) dest = .ok dest2
      simp only [copy_files_materialize]
      rw [hnone]
      simp only [Option.isSome_none, Bool.false_eq_true, if_false]
      exact hrun
    | file c =>
      refine ⟨dest2, ?_, hmem2, hkeep⟩
      show copy_files_materialize ((p, FSEntry.file c) :: rest) dest = .ok dest2
      simp only [copy_files_materialize]
      exact hrun

/-- C1: in alias-tolerant (symlink) mode, whenever a library name's
matches include at least one concrete (non-symlink) entry and all matches
are files, resolution succeeds and returns exactly the matched symlinks
plus one concrete match `target` that no concrete match exceeds in the
lexicographic order of joined paths; every other concrete match is
dropped. -/
theorem get_paths_symlink_alias_resolution
    (dirlist : List Entry) (dirpath libname template : String)
    (hnodup : (dirlist.map Entry.name).Nodup)
    (hfile : ∀ e ∈ dirlist.filter (fun e => fnmatch e.name (formatOne template libname)),
      e.isFile = true)
    (e0 : Entry)
    (he0 : e0 ∈ dirlist.filter (fun e => fnmatch e.name (formatOne template libname)))
    (he0c : e0.isLink = false) :
    ∃ target : Entry,
      target ∈ dirlist.filter (fun e => fnmatch e.name (formatOne template libname)) ∧
      target.isLink = false ∧
      (∀ e ∈ dirlist.filter (fun e => fnmatch e.name (formatOne template libname)),
        e.isLink = false →
        ¬ joinPath dirpath target.name < joinPath dirpath e.name) ∧
      ∃ res, get_paths true dirlist dirpath [libname] template = .ok res ∧
        ∀ q, q ∈ res ↔ ∃ e,
          e ∈ dirlist.filter (fun e => fnmatch e.name (formatOne template libname)) ∧
          (e.isLink = true ∨ e = target) ∧ q = joinPath dirpath e.name := by
  have hN : (dirlist.filter
      (fun e => fnmatch e.name (formatOne template libname))).Nodup :=
    List.Nodup.filter _ (List.Nodup.of_map Entry.name hnodup)
  have he0conc : e0 ∈ (dirlist.filter
      (fun e => fnmatch e.name (formatOne template libname))).filter
      (fun e => !e.isLink) := by
    refine List.mem_filter.mpr ⟨he0, ?_⟩
    show (!e0.isLink) = true
    rw [he0c]
    rfl
  have hne : dirlist.filter (fun e => fnmatch e.name (formatOne template libname)) ≠ [] := by
    intro hnil
    rw [hnil] at he0
    cases he0
  cases hconc : (dirlist.filter
      (fun e => fnmatch e.name (formatOne template libname))).filter
      (fun e => !e.isLink) with
  | nil =>
    rw [hconc] at he0conc
    cases he0conc
  | cons c cs =>
    obtain ⟨target, hmaxEq, htmem, htlink, hmaxprop, hkeptIff⟩ :=
      resolveKept_spec dirpath
        (dirlist.filter (fun e => fnmatch e.name (formatOne template libname)))
        hN c cs hconc
    have hred := getPathsOne_symlinks_reduce dirlist dirpath libname template target
      hne hfile hmaxEq
    refine ⟨target, htmem, htlink, hmaxprop, ?_⟩
    refine ⟨(((((dirlist.filter
        (fun e => fnmatch e.name (formatOne template libname))).filter
        (fun e => !e.isLink)).erase target).foldl
        (fun acc x => acc.erase x)
        (dirlist.filter (fun e => fnmatch e.name (formatOne template libname)))).map
        (fun e => joinPath dirpath e.name)), ?_, ?_⟩
    · rw [get_paths_singleton, hred]
    · intro q
      rw [List.mem_map]
      constructor
      · rintro ⟨e, heKept, hq⟩
        obtain ⟨hepaths, hcase⟩ := (hkeptIff e).mp heKept
        exact ⟨e, hepaths, hcase, hq.symm⟩
      · rintro ⟨e, hepaths, hcase, hq⟩
        exact ⟨e, (hkeptIff e).mpr ⟨hepaths, hcase⟩, hq.symm⟩

/-- Witness for C1: for matches `libfoo.so.1` (concrete),
`libfoo.so.2` (symlink) and `libfoo.so.3` (concrete) the target is a
maximal concrete match and the result set is exactly the symlink plus
the target -- concretely `{/d/libfoo.so.2, /d/libfoo.so.3}`, excluding
`/d/libfoo.so.1`. -/
theorem get_paths_symlink_alias_resolution_witness :
    (∃ target : Entry,
      target ∈ libfooListing.filter
        (fun e => fnmatch e.name (formatOne "lib{0}.so*" "foo")) ∧
      target.isLink = false ∧
      (∀ e ∈ libfooListing.filter
          (fun e => fnmatch e.name (formatOne "lib{0}.so*" "foo")),
        e.isLink = false →
        ¬ joinPath "/d" target.name < joinPath "/d" e.name) ∧
      ∃ res,
        get_paths true libfooListing "/d" ["foo"] "lib{0}.so*" = .ok res ∧
        ∀ q, q ∈ res ↔ ∃ e,
          e ∈ libfooListing.filter
            (fun e => fnmatch e.name (formatOne "lib{0}.so*" "foo")) ∧
          (e.isLink = true ∨ e = target) ∧ q = joinPath "/d" e.name) ∧
    get_paths true libfooListing "/d" ["foo"] "lib{0}.so*" =
      .ok ["/d/libfoo.so.2", "/d/libfoo.so.3"] :=
  ⟨get_paths_symlink_alias_resolution libfooListing "/d" "foo" "lib{0}.so*"
      (by decide) (by decide) ⟨"libfoo.so.1", false, true⟩ (by decide) rfl,
   by rfl⟩

/-- Witness for C5: the symlink `/s/liba.so.2 -> liba.so.2.1` is
recreated at the destination with the identical target string, and the
regular file `/s/liba.so.2.1` overwrites the stale destination file of
the same basename with its bytes. -/
theorem copy_files_materialize_spec_witness :
    ∃ dest2,
      copy_files_materialize
        [("/s/liba.so.2", .link "liba.so.2.1"), ("/s/liba.so.2.1", .file "LIBBYTES")]
        [("liba.so.2.1", .file "OLD")] = .ok dest2 ∧
      (∀ pe ∈ ([("/s/liba.so.2", FSEntry.link "liba.so.2.1"),
          ("/s/liba.so.2.1", FSEntry.file "LIBBYTES")] :
            List (String × FSEntry)),
        lookupDir dest2 (baseName pe.1) = some pe.2) ∧
      (∀ n, (∀ pe ∈ ([("/s/liba.so.2", FSEntry.link "liba.so.2.1"),
          ("/s/liba.so.2.1", FSEntry.file "LIBBYTES")] :
            List (String × FSEntry)),
          baseName pe.1 ≠ n) →
        lookupDir dest2 n = lookupDir [("liba.so.2.1", FSEntry.file "OLD")] n) :=
  copy_files_materialize_spec
    [("/s/liba.so.2", .link "liba.so.2.1"), ("/s/liba.so.2.1", .file "LIBBYTES")]
    [("liba.so.2.1", .file "OLD")] (by decide) (by decide)

end Build
